import Mathlib

/-!
# Verification of the cnc-machinist-mate toolpath generators

Shallow embedding of the two deterministic G-code generators of the
repository (the circular-pocket generator in
`src/components/gcode-generator.tsx` and the thread-milling generator in
`src/components/threadmill-generator.tsx`), together with proofs about the
pass-scheduling arithmetic and the emitted program text.

Machining quantities are modelled as rationals (`ℚ`); the JavaScript
number-rendering helpers (`Number#toFixed(4)`, template interpolation of a
number, the feed formatter) are modelled as functions on `ℚ` producing the
exact decimal text for values with terminating decimal expansions, which
covers every value the theorems below evaluate.  The `while` loops of the
source are modelled as fuel-indexed structural recursions; the generators
call them with a fuel budget that is proved sufficient, and fuel
insensitivity is proved separately.
-/

namespace CncMate

/-- Decimal digits of a natural number, least significant first;
structural recursion on a fuel bound. -/
def natDigsAux : Nat → Nat → List Char
  | 0, _ => []
  | f + 1, n => if n = 0 then [] else Nat.digitChar (n % 10) :: natDigsAux f (n / 10)

/-- Decimal numeral of a natural number (JavaScript renders integral
values this way). -/
def natStr (n : Nat) : String :=
  if n = 0 then ("0") else String.mk (natDigsAux n n).reverse

/-- Zero-pad the decimal numeral of `n` on the left to `k` digits. -/
def padZ (k n : Nat) : String :=
  String.mk (List.replicate (k - (natStr n).length) '0' ++ (natStr n).data)

/-- Smallest `k < 64` with `d ∣ 10 ^ k`, i.e. the number of fractional
digits of a terminating decimal with reduced denominator `d`
(`0` if there is none below the bound). -/
def decExp (d : Nat) : Nat :=
  ((List.range 64).find? (fun k => 10 ^ k % d = 0)).getD 0

/-- Decimal text of a nonnegative rational with terminating decimal
expansion, without trailing zeros (as JavaScript number-to-string
produces for such values). -/
def posStr (q : ℚ) : String :=
  let k := decExp q.den
  let n := q.num.natAbs * 10 ^ k / q.den
  if k = 0 then natStr n else natStr (n / 10 ^ k) ++ (".") ++ padZ k (n % 10 ^ k)

/-- JavaScript template interpolation `${x}` of a number with terminating
decimal expansion. -/
def numToString (q : ℚ) : String :=
  if q < 0 then ("-") ++ posStr (-q) else posStr q

/-- JavaScript `Number#toFixed(4)`: round to 4 decimals and render with
exactly four digits after the decimal point. -/
def toFixed4 (q : ℚ) : String :=
  let m : ℤ := round (q * 10000)
  (if m < 0 then ("-") else ("")) ++ natStr (m.natAbs / 10000) ++ (".") ++ padZ 4 (m.natAbs % 10000)

/-- The feed formatter of both generators:
`(f) => Number.isInteger(f) ? `${f}.` : f.toString()`. -/
def formatFeed (f : ℚ) : String :=
  if f.den = 1 then numToString f ++ (".") else numToString f

/-- Ceiling of a rational as a natural number (zero for nonpositive input). -/
def ceilNatQ (q : ℚ) : ℕ := Nat.ceil q

/-- Is `p` a prefix of `s` (character lists)? -/
def listPre : List Char → List Char → Bool
  | [], _ => true
  | _ :: _, [] => false
  | a :: as, b :: bs => a == b && listPre as bs

/-- Does `p` occur as a contiguous sublist of `s`? -/
def listSub : List Char → List Char → Bool
  | p, [] => listPre p []
  | p, c :: cs => listPre p (c :: cs) || listSub p cs

/-- Does the string `pat` occur inside the string `s`? -/
def containsStr (pat s : String) : Bool := listSub pat.data s.data

/-- One emitted program line, tagged by its role in the program; the
payload is the exact rendered text of the line. -/
inductive GLine where
  /-- comment lines and fixed setup/teardown lines -/
  | text : String → GLine
  /-- the modal preamble line (carries the `G40` compensation reset) -/
  | preset : String → GLine
  /-- rapid / linear / circular / helical move lines -/
  | motion : String → GLine
  /-- cutter-compensation-on move line (`G41` / `G42`) -/
  | compOn : String → GLine
  /-- compensation-cancel move line (`G01 G40 …`) -/
  | compOff : String → GLine
deriving DecidableEq

/-- The rendered text of a line. -/
def GLine.render : GLine → String
  | .text s => s
  | .preset s => s
  | .motion s => s
  | .compOn s => s
  | .compOff s => s

/-- Is this line a compensation-on primitive? -/
def GLine.isOn : GLine → Bool
  | .compOn _ => true
  | _ => false

/-- Is this line a compensation-off primitive? -/
def GLine.isOff : GLine → Bool
  | .compOff _ => true
  | _ => false

/-- Is this line a motion primitive? -/
def GLine.isMotion : GLine → Bool
  | .motion _ => true
  | .compOn _ => true
  | .compOff _ => true
  | _ => false

/-- Serialize a line list the way the source assembles its output: each
line followed by a newline. -/
def renderProg (ls : List GLine) : String :=
  String.join (ls.map (fun l => GLine.render l ++ ("\n")))

/-- Every compensation-on line is followed (strictly later in the list)
by a compensation-off line. -/
def compFollowed : List GLine → Bool
  | [] => true
  | l :: ls => (!(GLine.isOn l) || ls.any GLine.isOff) && compFollowed ls

/-- Ascending sort, modelling the source line
`radii.sort((a, b) => a - b)` (numeric ascending sort). -/
def sortAsc (l : List ℚ) : List ℚ := List.insertionSort (fun a b => a ≤ b) l

/-- Input record of the circular-pocket generator
(`gcode-generator.tsx`, validated form values). -/
structure PocketInput where
  cutterDiameter : ℚ
  circleDiameter : ℚ
  speed : ℕ
  feed : ℚ
  totalDepthOfCut : ℚ
  depthPerPass : ℚ
  stepover : ℚ
  /-- True when the form field millingDirection holds climb. -/
  climb : Bool
  rPlane : ℚ
  toolNumber : ℕ

namespace Pocket

/-- Source: `const toolRadius = cutterDiameter / 2`. -/
def toolRadius (d : PocketInput) : ℚ := d.cutterDiameter / 2

/-- Source: `const finalRadius = circleDiameter / 2`. -/
def finalRadius (d : PocketInput) : ℚ := d.circleDiameter / 2

/-- Source: `const finalPathRadius = finalRadius - toolRadius`. -/
def finalPathRadius (d : PocketInput) : ℚ := finalRadius d - toolRadius d

/-- Source: `const rampRadius = Math.min(stepover, finalRadius - toolRadius) / 2`. -/
def rampRadius (d : PocketInput) : ℚ := min d.stepover (finalRadius d - toolRadius d) / 2

/-- Compensation side: G41 for climb, G42 for conventional. -/
def compensationDirection (d : PocketInput) : String :=
  if d.climb then ("G41") else ("G42")

/-- Rotational sense: G03 for climb, G02 for conventional. -/
def directionGCode (d : PocketInput) : String :=
  if d.climb then ("G03") else ("G02")

/-- The depth-pass `while` loop
(`while (currentDepth < totalDepthOfCut) { currentDepth = Math.min(currentDepth + depthPerPass, totalDepthOfCut); … }`):
yields the `(previousDepth, currentDepth)` pair of each iteration.
Structural recursion on a fuel bound. -/
def depthPairsAux : ℕ → ℚ → ℚ → ℚ → List (ℚ × ℚ)
  | 0, _, _, _ => []
  | fuel + 1, D, s, cur =>
    if cur < D then (cur, min (cur + s) D) :: depthPairsAux fuel D s (min (cur + s) D)
    else []

/-- Fuel budget for the depth loop; proved sufficient below. -/
def depthFuel (d : PocketInput) : ℕ := ceilNatQ (d.totalDepthOfCut / d.depthPerPass) + 1

/-- The list of depth passes, as `(previousDepth, currentDepth)` pairs. -/
def depthPairs (d : PocketInput) : List (ℚ × ℚ) :=
  depthPairsAux (depthFuel d) d.totalDepthOfCut d.depthPerPass 0

/-- The concentric-radius `while` loop
(`let currentRadius = stepover; while (currentRadius < finalPathRadius) { …; currentRadius += stepover }`).
Structural recursion on a fuel bound. -/
def loopRadiiAux : ℕ → ℚ → ℚ → ℚ → List ℚ
  | 0, _, _, _ => []
  | fuel + 1, rp, s, r =>
    if r < rp then r :: loopRadiiAux fuel rp s (r + s) else []

/-- Fuel budget for the radius loop; proved sufficient below. -/
def radiiFuel (d : PocketInput) : ℕ := ceilNatQ (finalPathRadius d / d.stepover) + 1

/-- The radii visited by the concentric-circle loop (strictly below the
net path radius). -/
def loopRadii (d : PocketInput) : List ℚ :=
  loopRadiiAux (radiiFuel d) (finalPathRadius d) d.stepover d.stepover

/-- All radial passes of one depth pass: the loop radii followed by the
final boundary pass at the net path radius. -/
def radialRadii (d : PocketInput) : List ℚ := loopRadii d ++ [finalPathRadius d]

/-- The fixed header block of the pocket program. -/
def headerLines (d : PocketInput) : List GLine :=
  let dirName := if d.climb then ("Climb") else ("Conventional")
  let t := natStr d.toolNumber
  [ .text (("(Circular Interpolation - Concentric Circles)")),
    .text (("(Direction: ") ++ dirName ++ (")")),
    .text (("(Cutter Dia: ") ++ numToString d.cutterDiameter ++ (", Circle Dia: ")
      ++ numToString d.circleDiameter ++ (")")),
    .preset (("G90 G17 G20 G40 G80")),
    .text (("T") ++ t ++ (" M06 (SELECT TOOL ") ++ t ++ (")")),
    .text (("G54")),
    .text (("M03 S") ++ natStr d.speed),
    .motion (("G00 X0. Y0.")),
    .motion (("G43 H") ++ t ++ (" Z") ++ numToString d.rPlane) ]

/-- The pass-entry lines: helical ramp to depth when `rampRadius > 0`,
otherwise a direct linear plunge. -/
def entryLines (d : PocketInput) (prev cur : ℚ) : List GLine :=
  let ff := formatFeed d.feed
  let fh := formatFeed (d.feed / 2)
  let dir := directionGCode d
  let ramp := toFixed4 (rampRadius d)
  if rampRadius d > 0 then
    [ .motion (("G00 Z-") ++ toFixed4 prev),
      .motion (("G01 X0. Y0. F") ++ ff),
      .motion (("G01 X") ++ ramp ++ (" F") ++ fh),
      .motion (dir ++ (" I-") ++ ramp ++ (" J0. Z-") ++ toFixed4 cur ++ (" F") ++ fh),
      .motion (dir ++ (" I-") ++ ramp ++ (" J0. F") ++ ff) ]
  else
    [ .motion (("G01 Z-") ++ toFixed4 cur ++ (" F") ++ fh) ]

/-- The two lines cutting one full circle at radius `r`. -/
def circleLines (d : PocketInput) (r : ℚ) : List GLine :=
  let ff := formatFeed d.feed
  let dir := directionGCode d
  [ .motion (("G01 X") ++ toFixed4 r ++ (" Y0. F") ++ ff),
    .motion (dir ++ (" I-") ++ toFixed4 r ++ (" J0. F") ++ ff) ]

/-- The block of lines of one depth pass. -/
def passLines (d : PocketInput) (pc : ℚ × ℚ) : List GLine :=
  let ff := formatFeed d.feed
  GLine.text (("(Pass at Z-") ++ toFixed4 pc.2 ++ (")")) ::
    (entryLines d pc.1 pc.2 ++
      [GLine.compOn (("G01 ") ++ compensationDirection d ++ (" D01 X0. Y0. F") ++ ff)] ++
      (loopRadii d).flatMap (circleLines d) ++
      circleLines d (finalPathRadius d) ++
      [GLine.compOff (("G01 G40 X0. Y0. F") ++ ff)])

/-- The fixed footer block of the pocket program. -/
def footerLines (d : PocketInput) : List GLine :=
  [ .motion (("G00 Z") ++ numToString d.rPlane),
    .text (("M05")),
    .text (("G91 G28 Z0")),
    .text (("G91 G28 X0 Y0")),
    .text (("G90")),
    .text (("M30")) ]

/-- All lines of the pocket program (header, one block per depth pass,
footer). -/
def lines (d : PocketInput) : List GLine :=
  headerLines d ++ (depthPairs d).flatMap (passLines d) ++ footerLines d

/-- The failure string returned when the cutter does not fit. -/
def errorText : String := "Error: Cutter diameter must be smaller than the circle diameter."

/-- Function `generateGCode` of `gcode-generator.tsx`: geometry guard, then the
serialized program. -/
def generateGCode (d : PocketInput) : String :=
  if d.cutterDiameter ≥ d.circleDiameter then errorText
  else renderProg (lines d)

end Pocket

/-- Input record of the thread-milling generator
(`threadmill-generator.tsx`, validated form values). -/
structure ThreadInput where
  threadMillDiameter : ℚ
  threadsPerInch : ℚ
  minorDiameter : ℚ
  majorDiameter : ℚ
  threadDepth : ℚ
  speed : ℕ
  feed : ℚ
  /-- True when the form field hand holds rh (right-hand thread). -/
  rh : Bool
  rPlane : ℚ
  toolNumber : ℕ
  radialPasses : ℕ

namespace Thread

/-- Source: `const toolRadius = threadMillDiameter / 2`. -/
def toolRadius (d : ThreadInput) : ℚ := d.threadMillDiameter / 2

/-- Source: `const majorRadius = majorDiameter / 2`. -/
def majorRadius (d : ThreadInput) : ℚ := d.majorDiameter / 2

/-- Source: `const threadPitch = 1 / threadsPerInch`. -/
def threadPitch (d : ThreadInput) : ℚ := 1 / d.threadsPerInch

/-- Source: `const pathRadius = majorRadius - toolRadius`. -/
def pathRadius (d : ThreadInput) : ℚ := majorRadius d - toolRadius d

/-- Helical sense: G03 for a right-hand thread, G02 for left-hand. -/
def helicalDirection (d : ThreadInput) : String :=
  if d.rh then ("G03") else ("G02")

/-- Compensation side: G41 for a right-hand thread, G42 for left-hand. -/
def compensationDirection (d : ThreadInput) : String :=
  if d.rh then ("G41") else ("G42")

/-- Source: `const passes = radialPasses || 1`. -/
def passes (d : ThreadInput) : ℕ := if d.radialPasses = 0 then 1 else d.radialPasses

/-- Source: `const radialCutAmount = toolRadius`. -/
def radialCutAmount (d : ThreadInput) : ℚ := toolRadius d

/-- Source: `const nominalRadialStep = 1`. -/
def nominalRadialStep : ℚ := 1

/-- Source: `const maxStep = Math.abs(nominalRadialStep)`. -/
def maxStep : ℚ := |nominalRadialStep|

/-- Source: `let radialStep = radialCutAmount / passes; radialStep = Math.min(Math.abs(radialStep), maxStep)`. -/
def radialStep (d : ThreadInput) : ℚ :=
  min (|radialCutAmount d / (passes d : ℚ)|) maxStep

/-- Source: `const iValue = Math.abs(pathRadius) / passes`. -/
def iValue (d : ThreadInput) : ℚ := (|pathRadius d|) / (passes d : ℚ)

/-- Source: `const zBottom = -threadDepth`. -/
def zBottom (d : ThreadInput) : ℚ := -d.threadDepth

/-- Source: `Array.from` over the pass indices, giving the values of `Math.abs(pathRadius - i * radialStep)`. -/
def radiiUnsorted (d : ThreadInput) : List ℚ :=
  (List.range (passes d)).map (fun (i : ℕ) => |pathRadius d - (i : ℚ) * radialStep d|)

/-- The candidate radii after `radii.sort((a, b) => a - b)`. -/
def radii (d : ThreadInput) : List ℚ := sortAsc (radiiUnsorted d)

/-- The helical `while` loop
(`while (currentThreadZ < threadDepth) { const zMove = Math.min(threadPitch, threadDepth - currentThreadZ); …; currentThreadZ += zMove }`):
yields each per-revolution axial advance.  Structural recursion on a fuel
bound. -/
def helixAux : ℕ → ℚ → ℚ → ℚ → List ℚ
  | 0, _, _, _ => []
  | fuel + 1, pitch, depth, cur =>
    if cur < depth then
      min pitch (depth - cur) :: helixAux fuel pitch depth (cur + min pitch (depth - cur))
    else []

/-- Fuel budget for the helical loop; proved sufficient below. -/
def helixFuel (d : ThreadInput) : ℕ := ceilNatQ (d.threadDepth / threadPitch d) + 1

/-- The per-revolution axial advances of one radial pass. -/
def helixMoves (d : ThreadInput) : List ℚ :=
  helixAux (helixFuel d) (threadPitch d) d.threadDepth 0

/-- The fixed header block of the thread-milling program. -/
def headerLines (d : ThreadInput) : List GLine :=
  let t := natStr d.toolNumber
  let handName := if d.rh then ("Right Hand") else ("Left Hand")
  [ .text (("(Thread Milling G-Code - ") ++ handName ++ (")")),
    .text (("(Major Dia: ") ++ numToString d.majorDiameter ++ (", TPI: ")
      ++ numToString d.threadsPerInch ++ (")")),
    .text (("G20 (INCH MODE)")),
    .preset (("G90 G17 G40 G80")),
    .text (("T") ++ t ++ (" M06 (SELECT TOOL ") ++ t ++ (")")),
    .text (("G54 S") ++ natStr d.speed ++ (" M03")),
    .motion (("G0 X0. Y0.")),
    .motion (("G43 Z") ++ numToString d.rPlane ++ (" H") ++ t ++ (" M08")),
    .motion (("G01 Z") ++ toFixed4 (zBottom d) ++ (" F") ++ formatFeed d.feed),
    .text (("G91")) ]

/-- One helical move line (incremental mode). -/
def helixLine (d : ThreadInput) (z : ℚ) : GLine :=
  .motion (helicalDirection d ++ (" X0. Y0. Z") ++ toFixed4 z ++ (" I-")
    ++ toFixed4 (iValue d) ++ (" J0. F") ++ formatFeed d.feed)

/-- The block of lines of one radial pass (`radii.forEach((thisRadius, idx) => …)`). -/
def passLines (d : ThreadInput) (idx : ℕ) (r : ℚ) : List GLine :=
  GLine.text (("(Pass ") ++ natStr (idx + 1) ++ (")")) ::
    GLine.compOn (("G01 ") ++ compensationDirection d ++ (" D") ++ natStr d.toolNumber
      ++ (" X") ++ toFixed4 r ++ (" Y0. F") ++ formatFeed d.feed) ::
    ((helixMoves d).map (helixLine d) ++
      [GLine.compOff (("G01 G40 X-") ++ toFixed4 r ++ (" Y0."))])

/-- The fixed footer block of the thread-milling program. -/
def footerLines (d : ThreadInput) : List GLine :=
  [ .text (("G90")),
    .motion (("G00 Z") ++ numToString d.rPlane),
    .text (("M05")),
    .text (("M09")),
    .text (("G91 G28 Z0")),
    .text (("G91 G28 X0 Y0")),
    .text (("G90")),
    .text (("M30")) ]

/-- All lines of the thread-milling program. -/
def lines (d : ThreadInput) : List GLine :=
  headerLines d ++ (radii d).enum.flatMap (fun p => passLines d p.1 p.2) ++ footerLines d

/-- Function `generateGCode` of `threadmill-generator.tsx` (note: no geometry
guard is present in this generator). -/
def generateGCode (d : ThreadInput) : String := renderProg (lines d)

end Thread

/-- The per-pass depth increments of the pocket generator
(`currentDepth - previousDepth` of each iteration). -/
def Pocket.passIncs (d : PocketInput) : List ℚ :=
  (Pocket.depthPairs d).map (fun pc => pc.2 - pc.1)

/-- The default form values of the pocket generator (also the input of
Scenario B of the specification: cutter diameter 0.5, circle diameter
3.0, stepover 0.2) and of Scenario D (total depth 0.5, depth per pass
0.25). -/
def pdDefault : PocketInput :=
  { cutterDiameter := 1/2, circleDiameter := 3, speed := 3000, feed := 20,
    totalDepthOfCut := 1/2, depthPerPass := 1/4, stepover := 1/5,
    climb := true, rPlane := 1/10, toolNumber := 1 }

/-- A pocket input whose cutter does not fit the circle
(tool diameter 3 ≥ circle diameter 0.5). -/
def pdBad : PocketInput :=
  { cutterDiameter := 3, circleDiameter := 1/2, speed := 3000, feed := 20,
    totalDepthOfCut := 1/2, depthPerPass := 1/4, stepover := 1/5,
    climb := true, rPlane := 1/10, toolNumber := 1 }

/-- The default form values of the thread-milling generator. -/
def tdDefault : ThreadInput :=
  { threadMillDiameter := 2/5, threadsPerInch := 20, minorDiameter := 7/16,
    majorDiameter := 1/2, threadDepth := 1/2, speed := 4000, feed := 15,
    rh := true, rPlane := 1/10, toolNumber := 1, radialPasses := 1 }

/-- Scenario C of the specification: threadmill diameter 0.4, major
diameter 0.5, 3 requested radial passes. -/
def tdScenC : ThreadInput :=
  { threadMillDiameter := 2/5, threadsPerInch := 20, minorDiameter := 7/16,
    majorDiameter := 1/2, threadDepth := 1/2, speed := 4000, feed := 15,
    rh := true, rPlane := 1/10, toolNumber := 1, radialPasses := 3 }

/-- The input of the test script of the repository, `scripts/test-case.js`
(Scenario A of the specification): tool radius 0.125 (diameter 0.25),
minor diameter 0.201, major diameter 0.25, thread depth 0.4, 4 radial
passes.  The script fixes no TPI; 20 is used here (none of the radial
quantities it checks depend on it). -/
def tdCase : ThreadInput :=
  { threadMillDiameter := 1/4, threadsPerInch := 20, minorDiameter := 201/1000,
    majorDiameter := 1/4, threadDepth := 2/5, speed := 4000, feed := 15,
    rh := true, rPlane := 1/10, toolNumber := 1, radialPasses := 4 }

/-- A pocket input with zero stepover, driving the ramp radius of the
pass entry to zero. -/
def pdZeroStep : PocketInput :=
  { cutterDiameter := 1/2, circleDiameter := 3, speed := 3000, feed := 20,
    totalDepthOfCut := 1/2, depthPerPass := 1/4, stepover := 0,
    climb := true, rPlane := 1/10, toolNumber := 1 }

/-- How many lines of a program carry the given text fragment. -/
def countContaining (pat : String) (ls : List GLine) : ℕ :=
  (ls.filter (fun l => containsStr pat (GLine.render l))).length

end CncMate

namespace CncMate

/-- Ceiling recurrence driving the loop analyses. -/
theorem natCeil_sub_one (x : ℚ) (hx : 0 < x) : ⌈x - 1⌉₊ = ⌈x⌉₊ - 1 := by
  rcases le_or_lt x 1 with h | h
  · have h1 : ⌈x⌉₊ = 1 :=
      le_antisymm (Nat.ceil_le.mpr (by exact_mod_cast h)) (Nat.ceil_pos.mpr hx)
    have h2 : ⌈x - 1⌉₊ = 0 := by
      simpa using Nat.ceil_le.mpr (by push_cast; linarith : x - 1 ≤ ((0:ℕ) : ℚ))
    omega
  · have h0 : (0:ℚ) ≤ x - 1 := by linarith
    have hc : (⌈x - 1⌉₊ : ℤ) = ⌈x - 1⌉ := Int.natCast_ceil_eq_ceil h0
    have hc2 : (⌈x⌉₊ : ℤ) = ⌈x⌉ := Int.natCast_ceil_eq_ceil (by linarith)
    have hr := Int.ceil_sub_one x
    have hp : 0 < ⌈x⌉₊ := Nat.ceil_pos.mpr hx
    omega

/-- Closed form of the depth-pass loop: starting at `cur`, it performs
`⌈(D - cur)/s⌉₊` iterations, the `i`-th yielding the pair
`(cur + i·s, min (cur + (i+1)·s) D)` — provided the fuel covers the
iteration count. -/
theorem depthPairsAux_closed (D s : ℚ) (hs : 0 < s) :
    ∀ (n fuel : ℕ) (cur : ℚ), n = ⌈(D - cur) / s⌉₊ → n ≤ fuel →
      Pocket.depthPairsAux fuel D s cur =
        (List.range n).map
          (fun (i : ℕ) => (cur + (i : ℚ) * s, min (cur + ((i : ℚ) + 1) * s) D)) := by
  intro n
  induction n with
  | zero =>
    intro fuel cur h _
    have hcur : ¬ cur < D := by
      intro hlt
      have : 0 < ⌈(D - cur) / s⌉₊ := Nat.ceil_pos.mpr (div_pos (by linarith) hs)
      omega
    cases fuel with
    | zero => simp [Pocket.depthPairsAux]
    | succ f => simp [Pocket.depthPairsAux, hcur]
  | succ n ih =>
    intro fuel cur h hf
    obtain ⟨f, rfl⟩ : ∃ f, fuel = f + 1 := ⟨fuel - 1, by omega⟩
    have hcur : cur < D := by
      by_contra hge
      have hx : (D - cur) / s ≤ 0 :=
        div_nonpos_of_nonpos_of_nonneg (by linarith) (le_of_lt hs)
      have : ⌈(D - cur) / s⌉₊ = 0 := Nat.ceil_eq_zero.mpr hx
      omega
    rw [Pocket.depthPairsAux, if_pos hcur]
    rcases le_or_lt D (cur + s) with h1 | h2
    · have hmin : min (cur + s) D = D := min_eq_right h1
      have hn : n = 0 := by
        have hle : ⌈(D - cur) / s⌉₊ ≤ 1 := by
          refine Nat.ceil_le.mpr ?_
          push_cast
          rw [div_le_one hs]
          linarith
        omega
      subst hn
      have htail : Pocket.depthPairsAux f D s D = [] := by
        cases f with
        | zero => simp [Pocket.depthPairsAux]
        | succ f2 => simp [Pocket.depthPairsAux]
      rw [hmin, htail]
      rw [(by decide : List.range 1 = [0])]
      simp only [List.map_cons, List.map_nil]
      push_cast
      rw [zero_mul, add_zero, zero_add, one_mul, hmin]
    · have hmin : min (cur + s) D = cur + s := min_eq_left (le_of_lt h2)
      have hrec : n = ⌈(D - (cur + s)) / s⌉₊ := by
        have hx : 0 < (D - cur) / s := div_pos (by linarith) hs
        have heq : (D - (cur + s)) / s = (D - cur) / s - 1 := by
          field_simp
          ring
        rw [heq, natCeil_sub_one _ hx]
        omega
      rw [hmin, ih f (cur + s) hrec (by omega)]
      rw [List.range_succ_eq_map]
      simp only [List.map_cons, List.map_map]
      refine congrArg₂ (· :: ·) ?_ ?_
      · push_cast
        rw [zero_mul, add_zero, zero_add, one_mul, hmin]
      · refine List.map_congr_left (fun i _ => ?_)
        simp only [Function.comp]
        push_cast
        rw [show cur + s + (i : ℚ) * s = cur + ((i : ℚ) + 1) * s by ring,
          show cur + s + ((i : ℚ) + 1) * s = cur + ((i : ℚ) + 1 + 1) * s by ring]

/-- Closed form of the concentric-radius loop: starting at `r`, it emits
`⌈(rp - r)/s⌉₊` radii, the `i`-th being `r + i·s` — provided the fuel
covers the iteration count. -/
theorem loopRadiiAux_closed (rp s : ℚ) (hs : 0 < s) :
    ∀ (n fuel : ℕ) (r : ℚ), n = ⌈(rp - r) / s⌉₊ → n ≤ fuel →
      Pocket.loopRadiiAux fuel rp s r =
        (List.range n).map (fun (i : ℕ) => r + (i : ℚ) * s) := by
  intro n
  induction n with
  | zero =>
    intro fuel r h _
    have hr : ¬ r < rp := by
      intro hlt
      have : 0 < ⌈(rp - r) / s⌉₊ := Nat.ceil_pos.mpr (div_pos (by linarith) hs)
      omega
    cases fuel with
    | zero => simp [Pocket.loopRadiiAux]
    | succ f => simp [Pocket.loopRadiiAux, hr]
  | succ n ih =>
    intro fuel r h hf
    obtain ⟨f, rfl⟩ : ∃ f, fuel = f + 1 := ⟨fuel - 1, by omega⟩
    have hr : r < rp := by
      by_contra hge
      have hx : (rp - r) / s ≤ 0 :=
        div_nonpos_of_nonpos_of_nonneg (by linarith) (le_of_lt hs)
      have : ⌈(rp - r) / s⌉₊ = 0 := Nat.ceil_eq_zero.mpr hx
      omega
    rw [Pocket.loopRadiiAux, if_pos hr]
    have hrec : n = ⌈(rp - (r + s)) / s⌉₊ := by
      have hx : 0 < (rp - r) / s := div_pos (by linarith) hs
      have heq : (rp - (r + s)) / s = (rp - r) / s - 1 := by
        field_simp
        ring
      rw [heq, natCeil_sub_one _ hx]
      omega
    rw [ih f (r + s) hrec (by omega)]
    rw [List.range_succ_eq_map]
    simp only [List.map_cons, List.map_map]
    refine congrArg₂ (· :: ·) ?_ ?_
    · push_cast
      rw [zero_mul, add_zero]
    · refine List.map_congr_left (fun i _ => ?_)
      simp only [Function.comp]
      push_cast
      ring

/-- Closed form of the helical `while` loop: starting at `cur`, it emits
`⌈(depth - cur)/pitch⌉₊` axial advances, the `i`-th being
`min pitch (depth - cur - i·pitch)` — provided the fuel covers the
iteration count. -/
theorem helixAux_closed (depth pitch : ℚ) (hp : 0 < pitch) :
    ∀ (n fuel : ℕ) (cur : ℚ), n = ⌈(depth - cur) / pitch⌉₊ → n ≤ fuel →
      Thread.helixAux fuel pitch depth cur =
        (List.range n).map
          (fun (i : ℕ) => min pitch (depth - cur - (i : ℚ) * pitch)) := by
  intro n
  induction n with
  | zero =>
    intro fuel cur h _
    have hcur : ¬ cur < depth := by
      intro hlt
      have : 0 < ⌈(depth - cur) / pitch⌉₊ := Nat.ceil_pos.mpr (div_pos (by linarith) hp)
      omega
    cases fuel with
    | zero => simp [Thread.helixAux]
    | succ f => simp [Thread.helixAux, hcur]
  | succ n ih =>
    intro fuel cur h hf
    obtain ⟨f, rfl⟩ : ∃ f, fuel = f + 1 := ⟨fuel - 1, by omega⟩
    have hcur : cur < depth := by
      by_contra hge
      have hx : (depth - cur) / pitch ≤ 0 :=
        div_nonpos_of_nonpos_of_nonneg (by linarith) (le_of_lt hp)
      have : ⌈(depth - cur) / pitch⌉₊ = 0 := Nat.ceil_eq_zero.mpr hx
      omega
    rw [Thread.helixAux, if_pos hcur]
    rcases le_or_lt depth (cur + pitch) with h1 | h2
    · have hmin : min pitch (depth - cur) = depth - cur :=
        min_eq_right (by linarith)
      have hn : n = 0 := by
        have hle : ⌈(depth - cur) / pitch⌉₊ ≤ 1 := by
          refine Nat.ceil_le.mpr ?_
          push_cast
          rw [div_le_one hp]
          linarith
        omega
      subst hn
      have htail : Thread.helixAux f pitch depth (cur + min pitch (depth - cur)) = [] := by
        rw [hmin]
        have : ¬ cur + (depth - cur) < depth := by
          intro hco
          simp at hco
        cases f with
        | zero => simp [Thread.helixAux]
        | succ f2 => simp [Thread.helixAux, this]
      rw [htail]
      rw [(by decide : List.range 1 = [0])]
      simp only [List.map_cons, List.map_nil]
      push_cast
      rw [zero_mul, sub_zero]
    · have hmin : min pitch (depth - cur) = pitch :=
        min_eq_left (by linarith)
      have hrec : n = ⌈(depth - (cur + pitch)) / pitch⌉₊ := by
        have hx : 0 < (depth - cur) / pitch := div_pos (by linarith) hp
        have heq : (depth - (cur + pitch)) / pitch = (depth - cur) / pitch - 1 := by
          field_simp
          ring
        rw [heq, natCeil_sub_one _ hx]
        omega
      rw [hmin, ih f (cur + pitch) hrec (by omega)]
      rw [List.range_succ_eq_map]
      simp only [List.map_cons, List.map_map]
      refine congrArg₂ (· :: ·) ?_ ?_
      · push_cast
        rw [zero_mul, sub_zero]
        exact hmin.symm
      · refine List.map_congr_left (fun i _ => ?_)
        simp only [Function.comp]
        push_cast
        rw [show depth - (cur + pitch) - (i : ℚ) * pitch
            = depth - cur - ((i : ℚ) + 1) * pitch by ring]

/-- Telescoping sum over `List.range`. -/
theorem sum_range_map_sub (F : ℕ → ℚ) :
    ∀ n : ℕ, ((List.range n).map (fun i => F (i + 1) - F i)).sum = F n - F 0 := by
  intro n
  induction n with
  | zero => simp
  | succ n ih =>
    rw [List.range_succ, List.map_append, List.sum_append, ih]
    simp

/-- The depth passes of the pocket generator in closed form: pass `i`
runs from depth `i·s` to depth `min ((i+1)·s) D`, for
`i < ⌈D / s⌉₊`. -/
theorem Pocket.depthPairs_eq (d : PocketInput) (hs : 0 < d.depthPerPass) :
    Pocket.depthPairs d =
      (List.range (ceilNatQ (d.totalDepthOfCut / d.depthPerPass))).map
        (fun (i : ℕ) => ((i : ℚ) * d.depthPerPass,
          min (((i : ℚ) + 1) * d.depthPerPass) d.totalDepthOfCut)) := by
  rw [Pocket.depthPairs,
    depthPairsAux_closed d.totalDepthOfCut d.depthPerPass hs
      (ceilNatQ (d.totalDepthOfCut / d.depthPerPass)) (Pocket.depthFuel d) 0
      (by rw [ceilNatQ, sub_zero]) (by rw [Pocket.depthFuel]; omega)]
  refine List.map_congr_left (fun i _ => ?_)
  rw [zero_add, zero_add]

/-- The loop radii of the pocket generator in closed form: the `i`-th
emitted radius is `(i+1)·s`, for `i < ⌈rp / s⌉₊ - 1`. -/
theorem Pocket.loopRadii_eq (d : PocketInput) (hs : 0 < d.stepover) :
    Pocket.loopRadii d =
      (List.range (ceilNatQ (Pocket.finalPathRadius d / d.stepover) - 1)).map
        (fun (i : ℕ) => ((i : ℚ) + 1) * d.stepover) := by
  have hn : ⌈(Pocket.finalPathRadius d - d.stepover) / d.stepover⌉₊
      = ceilNatQ (Pocket.finalPathRadius d / d.stepover) - 1 := by
    rcases le_or_lt (Pocket.finalPathRadius d) 0 with h0 | h0
    · have h1 : ⌈(Pocket.finalPathRadius d - d.stepover) / d.stepover⌉₊ = 0 :=
        Nat.ceil_eq_zero.mpr
          (div_nonpos_of_nonpos_of_nonneg (by linarith) (le_of_lt hs))
      have h2 : ceilNatQ (Pocket.finalPathRadius d / d.stepover) = 0 :=
        Nat.ceil_eq_zero.mpr
          (div_nonpos_of_nonpos_of_nonneg (by linarith) (le_of_lt hs))
      omega
    · have hx : 0 < Pocket.finalPathRadius d / d.stepover := div_pos h0 hs
      have heq : (Pocket.finalPathRadius d - d.stepover) / d.stepover
          = Pocket.finalPathRadius d / d.stepover - 1 := by
        field_simp
      rw [heq, natCeil_sub_one _ hx, ceilNatQ]
  have hfuel : ceilNatQ (Pocket.finalPathRadius d / d.stepover) - 1
      ≤ Pocket.radiiFuel d := by
    rw [Pocket.radiiFuel]; omega
  rw [Pocket.loopRadii,
    loopRadiiAux_closed (Pocket.finalPathRadius d) d.stepover hs
      (ceilNatQ (Pocket.finalPathRadius d / d.stepover) - 1) (Pocket.radiiFuel d)
      d.stepover hn.symm hfuel]
  refine List.map_congr_left (fun i _ => ?_)
  ring

/-- The helical advances of the thread-milling generator in closed form:
the `i`-th advance is `min pitch (depth - i·pitch)`, for
`i < ⌈depth / pitch⌉₊`. -/
theorem Thread.helixMoves_eq (d : ThreadInput) (hp : 0 < Thread.threadPitch d) :
    Thread.helixMoves d =
      (List.range (ceilNatQ (d.threadDepth / Thread.threadPitch d))).map
        (fun (i : ℕ) =>
          min (Thread.threadPitch d) (d.threadDepth - (i : ℚ) * Thread.threadPitch d)) := by
  rw [Thread.helixMoves,
    helixAux_closed d.threadDepth (Thread.threadPitch d) hp
      (ceilNatQ (d.threadDepth / Thread.threadPitch d)) (Thread.helixFuel d) 0
      (by rw [ceilNatQ, sub_zero]) (by rw [Thread.helixFuel]; omega)]
  refine List.map_congr_left (fun i _ => ?_)
  rw [sub_zero]

/-- Claim C4: For every total depth `D > 0` and depth-per-pass `s > 0` with
`D ≥ s`, the circular-pocket generator emits exactly `⌈D/s⌉` depth
passes, every pass increment except the last equals `s`, the last equals
the remainder `D - (n-1)·s`, the final target depth is clamped to
exactly `D` with no overshoot, and the increments sum to `D` exactly. -/
theorem pocket_depth_coverage (d : PocketInput)
    (hs : 0 < d.depthPerPass) (hD : d.depthPerPass ≤ d.totalDepthOfCut) :
    (Pocket.depthPairs d).length = ceilNatQ (d.totalDepthOfCut / d.depthPerPass) ∧
    (∀ i : ℕ, i + 1 < (Pocket.depthPairs d).length →
      (Pocket.passIncs d)[i]? = some d.depthPerPass) ∧
    (Pocket.passIncs d).getLast? = some (d.totalDepthOfCut -
      ((ceilNatQ (d.totalDepthOfCut / d.depthPerPass) - 1 : ℕ) : ℚ) * d.depthPerPass) ∧
    (Pocket.depthPairs d).getLast? =
      some ((((ceilNatQ (d.totalDepthOfCut / d.depthPerPass) - 1 : ℕ) : ℚ)) * d.depthPerPass,
        d.totalDepthOfCut) ∧
    (∀ pc ∈ Pocket.depthPairs d, pc.2 ≤ d.totalDepthOfCut) ∧
    (Pocket.passIncs d).sum = d.totalDepthOfCut := by
  have hD0 : 0 < d.totalDepthOfCut := lt_of_lt_of_le hs hD
  have hn1 : 1 ≤ ceilNatQ (d.totalDepthOfCut / d.depthPerPass) :=
    Nat.ceil_pos.mpr (div_pos hD0 hs)
  have key : ∀ i : ℕ, i < ceilNatQ (d.totalDepthOfCut / d.depthPerPass) →
      (i : ℚ) * d.depthPerPass < d.totalDepthOfCut := by
    intro i hi
    have : (i : ℚ) < d.totalDepthOfCut / d.depthPerPass := Nat.lt_ceil.mp hi
    exact (lt_div_iff₀ hs).mp this
  have key2 : d.totalDepthOfCut ≤
      ((ceilNatQ (d.totalDepthOfCut / d.depthPerPass) : ℕ) : ℚ) * d.depthPerPass := by
    have : d.totalDepthOfCut / d.depthPerPass ≤
        ((ceilNatQ (d.totalDepthOfCut / d.depthPerPass) : ℕ) : ℚ) :=
      Nat.le_ceil (d.totalDepthOfCut / d.depthPerPass)
    exact (div_le_iff₀ hs).mp this
  have he := Pocket.depthPairs_eq d hs
  have hinc : Pocket.passIncs d =
      (List.range (ceilNatQ (d.totalDepthOfCut / d.depthPerPass))).map
        (fun (i : ℕ) =>
          min (((i : ℚ) + 1) * d.depthPerPass) d.totalDepthOfCut - (i : ℚ) * d.depthPerPass) := by
    rw [Pocket.passIncs, he, List.map_map]
    rfl
  obtain ⟨m, hm⟩ : ∃ m, ceilNatQ (d.totalDepthOfCut / d.depthPerPass) = m + 1 :=
    ⟨ceilNatQ (d.totalDepthOfCut / d.depthPerPass) - 1, by omega⟩
  have hminm : min (((m : ℚ) + 1) * d.depthPerPass) d.totalDepthOfCut
      = d.totalDepthOfCut := by
    refine min_eq_right ?_
    have := key2
    rw [hm] at this
    push_cast at this
    linarith
  have hcastm : (((ceilNatQ (d.totalDepthOfCut / d.depthPerPass) - 1 : ℕ)) : ℚ) = (m : ℚ) := by
    norm_cast
    omega
  refine ⟨?_, ?_, ?_, ?_, ?_, ?_⟩
  · rw [he]; simp
  · intro i hi
    rw [he] at hi
    simp only [List.length_map, List.length_range] at hi
    rw [hinc, List.getElem?_map, List.getElem?_range (by omega : i < ceilNatQ (d.totalDepthOfCut / d.depthPerPass))]
    have hlt : ((i : ℚ) + 1) * d.depthPerPass < d.totalDepthOfCut := by
      have := key (i + 1) (by omega)
      push_cast at this
      linarith
    simp only [Option.map_some']
    rw [min_eq_left (le_of_lt hlt)]
    congr 1
    ring
  · rw [hinc, hm, List.range_succ, List.map_append, List.map_cons, List.map_nil,
      List.getLast?_concat, hminm]
    simp
  · rw [he, hm, List.range_succ, List.map_append, List.map_cons, List.map_nil,
      List.getLast?_concat, hminm]
    simp
  · intro pc hpc
    rw [he] at hpc
    simp only [List.mem_map, List.mem_range] at hpc
    obtain ⟨i, _, rfl⟩ := hpc
    exact min_le_right _ _
  · rw [hinc]
    have hcongr : (List.range (ceilNatQ (d.totalDepthOfCut / d.depthPerPass))).map
        (fun (i : ℕ) =>
          min (((i : ℚ) + 1) * d.depthPerPass) d.totalDepthOfCut - (i : ℚ) * d.depthPerPass) =
        (List.range (ceilNatQ (d.totalDepthOfCut / d.depthPerPass))).map
          (fun (i : ℕ) => min (((i + 1 : ℕ) : ℚ) * d.depthPerPass) d.totalDepthOfCut
            - min (((i : ℕ) : ℚ) * d.depthPerPass) d.totalDepthOfCut) := by
      refine List.map_congr_left (fun i hi => ?_)
      rw [List.mem_range] at hi
      rw [min_eq_left (le_of_lt (key i hi))]
      push_cast
      ring_nf
    rw [hcongr,
      sum_range_map_sub (fun j => min ((j : ℚ) * d.depthPerPass) d.totalDepthOfCut) _,
      min_eq_right key2]
    simp [le_of_lt hD0]

/-- Witness for `pocket_depth_coverage` at the default input (Scenario D
of the specification: total depth 0.5, depth per pass 0.25 gives exactly
2 passes summing to the total depth). -/
theorem pocket_depth_coverage_witness :
    0 < pdDefault.depthPerPass ∧ pdDefault.depthPerPass ≤ pdDefault.totalDepthOfCut ∧
    (Pocket.depthPairs pdDefault).length = 2 ∧
    (Pocket.passIncs pdDefault).sum = pdDefault.totalDepthOfCut := by
  have h1 : 0 < pdDefault.depthPerPass := by with_unfolding_all decide
  have h2 : pdDefault.depthPerPass ≤ pdDefault.totalDepthOfCut := by
    with_unfolding_all decide
  have hmain := pocket_depth_coverage pdDefault h1 h2
  refine ⟨h1, h2, ?_, hmain.2.2.2.2.2⟩
  rw [hmain.1]
  with_unfolding_all decide

/-- Claim C5 (amended): Stepover-accumulation policy of the pocket
generator: the emitted radial passes are the stepover multiples strictly
below the net path radius, followed by a final pass at exactly the net
path radius; with the Scenario B input (cutter 0.5, circle 3.0, stepover
0.2) the net path radius is 1.25 and the emitted radii are
0.2, 0.4, 0.6, 0.8, 1.0, 1.2, 1.25 (7 passes, last exactly 1.25). -/
theorem pocket_radial_accumulation :
    (∀ d : PocketInput, 0 < d.stepover → d.cutterDiameter < d.circleDiameter →
      Pocket.radialRadii d =
        ((List.range (ceilNatQ (Pocket.finalPathRadius d / d.stepover) - 1)).map
          (fun (i : ℕ) => ((i : ℚ) + 1) * d.stepover)) ++ [Pocket.finalPathRadius d] ∧
      (∀ k : ℕ, ((k : ℚ) + 1) * d.stepover ∈ Pocket.loopRadii d ↔
        ((k : ℚ) + 1) * d.stepover < Pocket.finalPathRadius d) ∧
      (Pocket.radialRadii d).getLast? = some (Pocket.finalPathRadius d)) ∧
    Pocket.radialRadii pdDefault = [1/5, 2/5, 3/5, 4/5, 1, 6/5, 5/4] := by
  constructor
  · intro d hs hfit
    have hrp : 0 < Pocket.finalPathRadius d := by
      rw [Pocket.finalPathRadius, Pocket.finalRadius, Pocket.toolRadius]
      linarith
    have hn1 : 1 ≤ ceilNatQ (Pocket.finalPathRadius d / d.stepover) :=
      Nat.ceil_pos.mpr (div_pos hrp hs)
    refine ⟨?_, ?_, ?_⟩
    · rw [Pocket.radialRadii, Pocket.loopRadii_eq d hs]
    · intro k
      rw [Pocket.loopRadii_eq d hs]
      simp only [List.mem_map, List.mem_range]
      constructor
      · rintro ⟨i, hi, heq⟩
        have hik : i = k := by
          have := mul_right_cancel₀ (ne_of_gt hs) heq
          exact_mod_cast (by linarith : ((i : ℚ)) = (k : ℚ))
        subst hik
        have : (i + 1 : ℕ) < ceilNatQ (Pocket.finalPathRadius d / d.stepover) := by omega
        have hlt : ((i + 1 : ℕ) : ℚ) < Pocket.finalPathRadius d / d.stepover :=
          Nat.lt_ceil.mp this
        push_cast at hlt
        calc ((i : ℚ) + 1) * d.stepover
            < (Pocket.finalPathRadius d / d.stepover) * d.stepover := by
              exact mul_lt_mul_of_pos_right hlt hs
          _ = Pocket.finalPathRadius d := by field_simp
      · intro hlt
        refine ⟨k, ?_, rfl⟩
        have hq : ((k + 1 : ℕ) : ℚ) < Pocket.finalPathRadius d / d.stepover := by
          rw [lt_div_iff₀ hs]
          push_cast
          linarith
        have hceil : k + 1 < ceilNatQ (Pocket.finalPathRadius d / d.stepover) := by
          rw [ceilNatQ]
          exact Nat.lt_ceil.mpr hq
        omega
    · rw [Pocket.radialRadii, List.getLast?_concat]
  · with_unfolding_all decide

/-- Counterexample to C5 as stated: at the Scenario B input the net path
radius is 1.25 (not 1.0), and the emitted radii are not the five values
0.2 … 1.0 the claim asserts. -/
theorem pocket_radial_scenarioB_counterexample :
    Pocket.finalPathRadius pdDefault = 5/4 ∧
    Pocket.radialRadii pdDefault ≠ [1/5, 2/5, 3/5, 4/5, 1] ∧
    (Pocket.radialRadii pdDefault).getLast? ≠ some 1 := by
  with_unfolding_all decide

/-- Witness for `pocket_radial_accumulation` at the Scenario B input. -/
theorem pocket_radial_accumulation_witness :
    0 < pdDefault.stepover ∧ pdDefault.cutterDiameter < pdDefault.circleDiameter ∧
    (Pocket.radialRadii pdDefault).getLast? = some (Pocket.finalPathRadius pdDefault) := by
  have h1 : 0 < pdDefault.stepover := by with_unfolding_all decide
  have h2 : pdDefault.cutterDiameter < pdDefault.circleDiameter := by
    with_unfolding_all decide
  exact ⟨h1, h2, (pocket_radial_accumulation.1 pdDefault h1 h2).2.2⟩

/-- Claim C6: The thread-milling generator resolves the pitch as `1/TPI`
and on each radial pass emits helical moves whose axial advance per
revolution equals the pitch, repeated until the cumulative advance
reaches the thread depth, the final increment clamped to exactly the
remaining depth, with no overshoot. -/
theorem thread_helix_coverage :
    (∀ d : ThreadInput, Thread.threadPitch d = 1 / d.threadsPerInch) ∧
    (∀ d : ThreadInput, 0 < d.threadsPerInch → 0 < d.threadDepth →
      (Thread.helixMoves d).length = ceilNatQ (d.threadDepth / Thread.threadPitch d) ∧
      (∀ i : ℕ, i + 1 < (Thread.helixMoves d).length →
        (Thread.helixMoves d)[i]? = some (Thread.threadPitch d)) ∧
      (Thread.helixMoves d).getLast? = some (d.threadDepth -
        ((ceilNatQ (d.threadDepth / Thread.threadPitch d) - 1 : ℕ) : ℚ)
          * Thread.threadPitch d) ∧
      (∀ z ∈ Thread.helixMoves d, z ≤ Thread.threadPitch d) ∧
      (Thread.helixMoves d).sum = d.threadDepth) := by
  refine ⟨fun d => rfl, ?_⟩
  intro d htpi hdep
  have hp : 0 < Thread.threadPitch d := by
    rw [Thread.threadPitch]
    positivity
  have hn1 : 1 ≤ ceilNatQ (d.threadDepth / Thread.threadPitch d) :=
    Nat.ceil_pos.mpr (div_pos hdep hp)
  have key : ∀ i : ℕ, i < ceilNatQ (d.threadDepth / Thread.threadPitch d) →
      (i : ℚ) * Thread.threadPitch d < d.threadDepth := by
    intro i hi
    have : (i : ℚ) < d.threadDepth / Thread.threadPitch d := Nat.lt_ceil.mp hi
    exact (lt_div_iff₀ hp).mp this
  have key2 : d.threadDepth ≤
      ((ceilNatQ (d.threadDepth / Thread.threadPitch d) : ℕ) : ℚ) * Thread.threadPitch d := by
    have : d.threadDepth / Thread.threadPitch d ≤
        ((ceilNatQ (d.threadDepth / Thread.threadPitch d) : ℕ) : ℚ) :=
      Nat.le_ceil (d.threadDepth / Thread.threadPitch d)
    exact (div_le_iff₀ hp).mp this
  have he := Thread.helixMoves_eq d hp
  obtain ⟨m, hm⟩ : ∃ m, ceilNatQ (d.threadDepth / Thread.threadPitch d) = m + 1 :=
    ⟨ceilNatQ (d.threadDepth / Thread.threadPitch d) - 1, by omega⟩
  have hminm : min (Thread.threadPitch d) (d.threadDepth - (m : ℚ) * Thread.threadPitch d)
      = d.threadDepth - (m : ℚ) * Thread.threadPitch d := by
    refine min_eq_right ?_
    have := key2
    rw [hm] at this
    push_cast at this
    linarith
  refine ⟨?_, ?_, ?_, ?_, ?_⟩
  · rw [he]; simp
  · intro i hi
    rw [he] at hi
    simp only [List.length_map, List.length_range] at hi
    rw [he, List.getElem?_map,
      List.getElem?_range (by omega : i < ceilNatQ (d.threadDepth / Thread.threadPitch d))]
    have hlt : ((i : ℚ) + 1) * Thread.threadPitch d < d.threadDepth := by
      have := key (i + 1) (by omega)
      push_cast at this
      linarith
    simp only [Option.map_some']
    rw [min_eq_left (by linarith [hlt] : Thread.threadPitch d
      ≤ d.threadDepth - (i : ℚ) * Thread.threadPitch d)]
  · rw [he, hm, List.range_succ, List.map_append, List.map_cons, List.map_nil,
      List.getLast?_concat, hminm]
    simp
  · intro z hz
    rw [he] at hz
    simp only [List.mem_map, List.mem_range] at hz
    obtain ⟨i, _, rfl⟩ := hz
    exact min_le_left _ _
  · rw [he]
    have hcongr : (List.range (ceilNatQ (d.threadDepth / Thread.threadPitch d))).map
        (fun (i : ℕ) =>
          min (Thread.threadPitch d) (d.threadDepth - (i : ℚ) * Thread.threadPitch d)) =
        (List.range (ceilNatQ (d.threadDepth / Thread.threadPitch d))).map
          (fun (i : ℕ) =>
            min (((i + 1 : ℕ) : ℚ) * Thread.threadPitch d) d.threadDepth
              - min (((i : ℕ) : ℚ) * Thread.threadPitch d) d.threadDepth) := by
      refine List.map_congr_left (fun i hi => ?_)
      rw [List.mem_range] at hi
      rw [min_eq_left (le_of_lt (key i hi)), ← min_sub_sub_right]
      push_cast
      refine congrArg₂ min (by ring) (by ring)
    rw [hcongr,
      sum_range_map_sub
        (fun j => min ((j : ℚ) * Thread.threadPitch d) d.threadDepth) _,
      min_eq_right key2]
    simp [le_of_lt hdep]

/-- Witness for `thread_helix_coverage` at the default thread input
(TPI 20, depth 0.5: ten full-pitch advances of 0.05 summing exactly to
the depth). -/
theorem thread_helix_coverage_witness :
    0 < tdDefault.threadsPerInch ∧ 0 < tdDefault.threadDepth ∧
    Thread.threadPitch tdDefault = 1 / tdDefault.threadsPerInch ∧
    (Thread.helixMoves tdDefault).sum = tdDefault.threadDepth := by
  have h1 : 0 < tdDefault.threadsPerInch := by with_unfolding_all decide
  have h2 : 0 < tdDefault.threadDepth := by with_unfolding_all decide
  exact ⟨h1, h2, thread_helix_coverage.1 tdDefault,
    (thread_helix_coverage.2 tdDefault h1 h2).2.2.2.2⟩

/-- Claim C10: Under the validated preconditions, every generation loop
terminates: enlarging the fuel budget beyond the bound of the generator
never changes the result, i.e. each loop has already reached its exit
condition within the budget; each generator is a total function by
construction. -/
theorem generation_loops_terminate :
    (∀ (d : PocketInput) (extra : ℕ), 0 < d.depthPerPass →
      Pocket.depthPairsAux (Pocket.depthFuel d + extra)
          d.totalDepthOfCut d.depthPerPass 0 = Pocket.depthPairs d) ∧
    (∀ (d : PocketInput) (extra : ℕ), 0 < d.stepover →
      Pocket.loopRadiiAux (Pocket.radiiFuel d + extra)
          (Pocket.finalPathRadius d) d.stepover d.stepover = Pocket.loopRadii d) ∧
    (∀ (d : ThreadInput) (extra : ℕ), 0 < d.threadsPerInch →
      Thread.helixAux (Thread.helixFuel d + extra)
          (Thread.threadPitch d) d.threadDepth 0 = Thread.helixMoves d) := by
  refine ⟨?_, ?_, ?_⟩
  · intro d extra hs
    rw [Pocket.depthPairs,
      depthPairsAux_closed d.totalDepthOfCut d.depthPerPass hs
        (ceilNatQ (d.totalDepthOfCut / d.depthPerPass)) (Pocket.depthFuel d + extra) 0
        (by rw [ceilNatQ, sub_zero]) (by rw [Pocket.depthFuel]; omega),
      depthPairsAux_closed d.totalDepthOfCut d.depthPerPass hs
        (ceilNatQ (d.totalDepthOfCut / d.depthPerPass)) (Pocket.depthFuel d) 0
        (by rw [ceilNatQ, sub_zero]) (by rw [Pocket.depthFuel]; omega)]
  · intro d extra hs
    have hmono : ⌈(Pocket.finalPathRadius d - d.stepover) / d.stepover⌉₊
        ≤ ceilNatQ (Pocket.finalPathRadius d / d.stepover) := by
      rw [ceilNatQ]
      refine Nat.ceil_le_ceil ?_
      gcongr
      linarith
    rw [Pocket.loopRadii,
      loopRadiiAux_closed (Pocket.finalPathRadius d) d.stepover hs
        (⌈(Pocket.finalPathRadius d - d.stepover) / d.stepover⌉₊)
        (Pocket.radiiFuel d + extra) d.stepover rfl
        (by rw [Pocket.radiiFuel]; omega),
      loopRadiiAux_closed (Pocket.finalPathRadius d) d.stepover hs
        (⌈(Pocket.finalPathRadius d - d.stepover) / d.stepover⌉₊)
        (Pocket.radiiFuel d) d.stepover rfl
        (by rw [Pocket.radiiFuel]; omega)]
  · intro d extra htpi
    have hp : 0 < Thread.threadPitch d := by
      rw [Thread.threadPitch]
      positivity
    rw [Thread.helixMoves,
      helixAux_closed d.threadDepth (Thread.threadPitch d) hp
        (ceilNatQ (d.threadDepth / Thread.threadPitch d)) (Thread.helixFuel d + extra) 0
        (by rw [ceilNatQ, sub_zero]) (by rw [Thread.helixFuel]; omega),
      helixAux_closed d.threadDepth (Thread.threadPitch d) hp
        (ceilNatQ (d.threadDepth / Thread.threadPitch d)) (Thread.helixFuel d) 0
        (by rw [ceilNatQ, sub_zero]) (by rw [Thread.helixFuel]; omega)]

/-- Witness for `generation_loops_terminate` at the default inputs with
one unit of extra fuel. -/
theorem generation_loops_terminate_witness :
    0 < pdDefault.depthPerPass ∧ 0 < pdDefault.stepover ∧
    0 < tdDefault.threadsPerInch ∧
    Pocket.depthPairsAux (Pocket.depthFuel pdDefault + 1)
        pdDefault.totalDepthOfCut pdDefault.depthPerPass 0 = Pocket.depthPairs pdDefault ∧
    Thread.helixAux (Thread.helixFuel tdDefault + 1)
        (Thread.threadPitch tdDefault) tdDefault.threadDepth 0
      = Thread.helixMoves tdDefault := by
  have h1 : 0 < pdDefault.depthPerPass := by with_unfolding_all decide
  have h2 : 0 < pdDefault.stepover := by with_unfolding_all decide
  have h3 : 0 < tdDefault.threadsPerInch := by with_unfolding_all decide
  exact ⟨h1, h2, h3, generation_loops_terminate.1 pdDefault 1 h1,
    generation_loops_terminate.2.2 tdDefault 1 h3⟩

/-- Claim C1 (amended): Fixed pass-count radial policy of the
thread-milling generator: the per-pass radial step is
`min(|toolRadius/n|, 1)` (the numerator is the tool radius, not the net
path radius); the candidates are the absolute values
`|pathRadius - i·step|`; they are emitted sorted ascending, and since
all are nonnegative the emitted sequence is non-decreasing in absolute
value. -/
theorem thread_radial_policy (d : ThreadInput) :
    Thread.radialStep d = min (|Thread.toolRadius d / ((Thread.passes d : ℕ) : ℚ)|) 1 ∧
    Thread.radii d = sortAsc (Thread.radiiUnsorted d) ∧
    (Thread.radii d).Perm (Thread.radiiUnsorted d) ∧
    List.Sorted (fun a b => a ≤ b) (Thread.radii d) ∧
    (∀ x ∈ Thread.radii d, 0 ≤ x) ∧
    (Thread.radii d).map (fun x => |x|) = Thread.radii d := by
  have hperm : (Thread.radii d).Perm (Thread.radiiUnsorted d) :=
    List.perm_insertionSort (fun a b => a ≤ b) (Thread.radiiUnsorted d)
  have hmem : ∀ x ∈ Thread.radii d, 0 ≤ x := by
    intro x hx
    have hx2 : x ∈ Thread.radiiUnsorted d := hperm.mem_iff.mp hx
    rw [Thread.radiiUnsorted] at hx2
    simp only [List.mem_map, List.mem_range] at hx2
    obtain ⟨i, _, rfl⟩ := hx2
    exact abs_nonneg _
  refine ⟨?_, rfl, hperm, ?_, hmem, ?_⟩
  · rw [Thread.radialStep, Thread.radialCutAmount, Thread.maxStep,
      Thread.nominalRadialStep, abs_one]
  · exact List.sorted_insertionSort (fun a b => a ≤ b) (Thread.radiiUnsorted d)
  · refine List.map_congr_left (fun x hx => ?_) |>.trans (List.map_id _)
    exact abs_of_nonneg (hmem x hx)

/-- Counterexample to C1 as stated: with Scenario C (threadmill diameter
0.4, major diameter 0.5, 3 passes) the per-pass radial step from the
code is `min(|toolRadius/3|, 1) = 1/15 ≈ 0.0667`, not the claimed
`min(|pathRadius/3|, 1) = 1/60 ≈ 0.0167`. -/
theorem thread_radial_step_counterexample :
    Thread.radialStep tdScenC = 1/15 ∧
    min (|Thread.pathRadius tdScenC / ((Thread.passes tdScenC : ℕ) : ℚ)|) 1 = 1/60 ∧
    Thread.radialStep tdScenC
      ≠ min (|Thread.pathRadius tdScenC / ((Thread.passes tdScenC : ℕ) : ℚ)|) 1 := by
  with_unfolding_all decide

set_option maxRecDepth 100000 in
/-- Claim C2 (code bug): the test scripts of the repository and the inline
comment above the assignment compute the I value as the nominal radial
step limit divided by the pass count, but the component divides the
path radius by the pass count instead: at the input of
`scripts/test-case.js` the emitted I value is 0.0000 while the
documented formula gives 0.25. -/
theorem thread_ivalue_divergence :
    Thread.iValue tdCase = |Thread.pathRadius tdCase| / ((Thread.passes tdCase : ℕ) : ℚ) ∧
    Thread.iValue tdCase = 0 ∧
    Thread.nominalRadialStep / ((Thread.passes tdCase : ℕ) : ℚ) = 1/4 ∧
    Thread.iValue tdCase ≠ Thread.nominalRadialStep / ((Thread.passes tdCase : ℕ) : ℚ) ∧
    containsStr ("I-0.0000") (Thread.generateGCode tdCase) = true := by
  with_unfolding_all decide

/-- Claim C3 (amended): The circular-pocket generator guards the geometry:
whenever the cutter is at least as large as the circle it returns the
descriptive failure string alone — no motion words, no program lines.
(The thread-milling generator has no such guard; see the
counterexample.) -/
theorem geometry_guard :
    (∀ d : PocketInput, d.circleDiameter ≤ d.cutterDiameter →
      Pocket.generateGCode d = Pocket.errorText) ∧
    containsStr ("G0") Pocket.errorText = false ∧
    containsStr ("G1") Pocket.errorText = false ∧
    containsStr ("G2") Pocket.errorText = false ∧
    containsStr ("G3") Pocket.errorText = false ∧
    containsStr ("\n") Pocket.errorText = false ∧
    containsStr ("Error") Pocket.errorText = true := by
  refine ⟨?_, by decide, by decide, by decide, by decide, by decide, by decide⟩
  intro d h
  rw [Pocket.generateGCode, if_pos (h : d.cutterDiameter ≥ d.circleDiameter)]

set_option maxRecDepth 100000 in
/-- Counterexample to C3 as stated: the thread-milling profile has no
geometry guard — with tool diameter equal to the major diameter it
emits a complete program with helical motion and no failure string. -/
theorem thread_no_geometry_guard_counterexample :
    tdCase.majorDiameter ≤ tdCase.threadMillDiameter ∧
    containsStr ("Error") (Thread.generateGCode tdCase) = false ∧
    containsStr ("G03") (Thread.generateGCode tdCase) = true ∧
    containsStr ("M30") (Thread.generateGCode tdCase) = true := by
  with_unfolding_all decide

/-- Witness for `geometry_guard` at a concrete in-feasible input. -/
theorem geometry_guard_witness :
    pdBad.circleDiameter ≤ pdBad.cutterDiameter ∧
    Pocket.generateGCode pdBad = Pocket.errorText := by
  have h : pdBad.circleDiameter ≤ pdBad.cutterDiameter := by
    with_unfolding_all decide
  exact ⟨h, geometry_guard.1 pdBad h⟩

set_option maxRecDepth 100000 in
/-- Counterexample to C7 as stated: at Scenario A (tool radius 0.125,
major diameter 0.25, so path radius 0) the thread-milling generator does
not substitute a linear plunge for the helical moves — it emits helical
moves whose center offset is exactly zero (`I-0.0000`). -/
theorem thread_zero_radius_counterexample :
    Thread.pathRadius tdCase = 0 ∧
    Thread.iValue tdCase = 0 ∧
    Thread.helixLine tdCase (1/20) ∈ Thread.lines tdCase ∧
    containsStr ("I-0.0000 J0.") (Thread.generateGCode tdCase) = true := by
  with_unfolding_all decide

/-- Claim C7 (amended): The circular-pocket pass entry substitutes a
direct linear Z plunge exactly when the ramp radius resolves to zero or
negative; the thread-milling generator performs no such substitution: a
zero path radius gives a zero center offset, and a helical move is
emitted on every pass regardless. -/
theorem zero_radius_handling :
    (∀ (d : PocketInput) (prev cur : ℚ), Pocket.rampRadius d ≤ 0 →
      Pocket.entryLines d prev cur =
        [GLine.motion (("G01 Z-") ++ toFixed4 cur ++ (" F") ++ formatFeed (d.feed / 2))]) ∧
    (∀ d : ThreadInput, Thread.pathRadius d = 0 → Thread.iValue d = 0) ∧
    (∀ d : ThreadInput, 0 < d.threadsPerInch → 0 < d.threadDepth →
      Thread.helixLine d (min (Thread.threadPitch d) d.threadDepth) ∈ Thread.lines d) := by
  refine ⟨?_, ?_, ?_⟩
  · intro d prev cur h
    simp only [Pocket.entryLines]
    rw [if_neg (not_lt.mpr h)]
  · intro d h
    rw [Thread.iValue, h, abs_zero, zero_div]
  · intro d htpi hdep
    have hp : 0 < Thread.threadPitch d := by
      rw [Thread.threadPitch]
      positivity
    have hmem1 : min (Thread.threadPitch d) d.threadDepth ∈ Thread.helixMoves d := by
      rw [Thread.helixMoves_eq d hp]
      have hn1 : 0 < ceilNatQ (d.threadDepth / Thread.threadPitch d) :=
        Nat.ceil_pos.mpr (div_pos hdep hp)
      refine List.mem_map.mpr ⟨0, List.mem_range.mpr hn1, ?_⟩
      push_cast
      rw [zero_mul, sub_zero]
    obtain ⟨r, rs, hcons⟩ : ∃ r rs, Thread.radii d = r :: rs := by
      have hlen : (Thread.radii d).length = Thread.passes d := by
        rw [Thread.radii, sortAsc,
          (List.perm_insertionSort (fun a b => a ≤ b) (Thread.radiiUnsorted d)).length_eq,
          Thread.radiiUnsorted, List.length_map, List.length_range]
      have hpass : 0 < Thread.passes d := by
        rw [Thread.passes]
        split <;> omega
      cases hl : Thread.radii d with
      | nil => rw [hl] at hlen; simp at hlen; omega
      | cons r rs => exact ⟨r, rs, rfl⟩
    rw [Thread.lines, hcons]
    refine List.mem_append.mpr (Or.inl (List.mem_append.mpr (Or.inr ?_)))
    rw [List.enum_cons, List.flatMap_cons]
    refine List.mem_append.mpr (Or.inl ?_)
    rw [Thread.passLines]
    exact List.mem_cons_of_mem _ (List.mem_cons_of_mem _
      (List.mem_append.mpr (Or.inl (List.mem_map.mpr
        ⟨min (Thread.threadPitch d) d.threadDepth, hmem1, rfl⟩))))

/-- Witness for `zero_radius_handling`: with zero stepover the pocket
entry collapses to the direct plunge; the default thread input emits its
first helical move. -/
theorem zero_radius_handling_witness :
    Pocket.rampRadius pdZeroStep ≤ 0 ∧
    Pocket.entryLines pdZeroStep 0 (1/4) =
      [GLine.motion (("G01 Z-") ++ toFixed4 (1/4) ++ (" F")
        ++ formatFeed (pdZeroStep.feed / 2))] ∧
    0 < tdDefault.threadsPerInch ∧ 0 < tdDefault.threadDepth ∧
    Thread.helixLine tdDefault (min (Thread.threadPitch tdDefault) tdDefault.threadDepth)
      ∈ Thread.lines tdDefault := by
  have h1 : Pocket.rampRadius pdZeroStep ≤ 0 := by with_unfolding_all decide
  have h2 : 0 < tdDefault.threadsPerInch := by with_unfolding_all decide
  have h3 : 0 < tdDefault.threadDepth := by with_unfolding_all decide
  exact ⟨h1, zero_radius_handling.1 pdZeroStep 0 (1/4) h1, h2, h3,
    zero_radius_handling.2.2 tdDefault h2 h3⟩

/-- Counting over a flat map is the sum of the per-block counts. -/
theorem countP_flatMap {α β : Type} (p : α → Bool) (f : β → List α) :
    ∀ l : List β, (l.flatMap f).countP p = (l.map (fun b => (f b).countP p)).sum := by
  intro l
  induction l with
  | nil => rfl
  | cons b l ih =>
    rw [List.flatMap_cons, List.countP_append, List.map_cons, List.sum_cons, ih]

/-- A compensation-off line is not a compensation-on line. -/
theorem isOn_false_of_isOff (l : GLine) (h : GLine.isOff l = true) :
    GLine.isOn l = false := by
  cases l <;> simp_all [GLine.isOn, GLine.isOff]

/-- Lines that never switch compensation on can be prepended freely. -/
theorem compFollowed_append_left (xs rest : List GLine)
    (hx : ∀ x ∈ xs, GLine.isOn x = false) (hr : compFollowed rest = true) :
    compFollowed (xs ++ rest) = true := by
  induction xs with
  | nil => simpa
  | cons x xs ih =>
    rw [List.cons_append, compFollowed, hx x (List.mem_cons_self x xs)]
    simp only [Bool.not_false, Bool.true_or, Bool.true_and]
    exact ih (fun y hy => hx y (List.mem_cons_of_mem _ hy))

/-- A block that ends in a compensation-off line keeps the followed-ness
invariant, whatever compensation-on lines it contains. -/
theorem compFollowed_append_off (xs rest : List GLine) (z : GLine)
    (hz : GLine.isOff z = true) (hr : compFollowed rest = true) :
    compFollowed (xs ++ z :: rest) = true := by
  induction xs with
  | nil =>
    rw [List.nil_append, compFollowed, isOn_false_of_isOff z hz]
    simp [hr]
  | cons x xs ih =>
    rw [List.cons_append, compFollowed, ih]
    have hany : (xs ++ z :: rest).any GLine.isOff = true :=
      List.any_eq_true.mpr ⟨z, by simp, hz⟩
    simp [hany]

/-- Concatenating blocks that each end in a compensation-off line keeps
the followed-ness invariant. -/
theorem compFollowed_flatMap {β : Type} (g : β → List GLine)
    (hoff : ∀ b, ∃ ys z, g b = ys ++ [z] ∧ GLine.isOff z = true) :
    ∀ (l : List β) (rest : List GLine), compFollowed rest = true →
      compFollowed (l.flatMap g ++ rest) = true := by
  intro l
  induction l with
  | nil => intro rest h; simpa
  | cons b l ih =>
    intro rest hrest
    obtain ⟨ys, z, hg, hz⟩ := hoff b
    rw [List.flatMap_cons, List.append_assoc, hg, List.append_assoc,
      List.singleton_append]
    exact compFollowed_append_off ys _ z hz (ih rest hrest)

/-- Each pocket pass block ends in its compensation-off line. -/
theorem pocket_passLines_concat (d : PocketInput) (pc : ℚ × ℚ) :
    ∃ ys z, Pocket.passLines d pc = ys ++ [z] ∧ GLine.isOff z = true :=
  ⟨GLine.text _ :: (Pocket.entryLines d pc.1 pc.2
      ++ [GLine.compOn _]
      ++ (Pocket.loopRadii d).flatMap (Pocket.circleLines d)
      ++ Pocket.circleLines d (Pocket.finalPathRadius d)),
    GLine.compOff _, rfl, rfl⟩

/-- Each thread-milling pass block ends in its compensation-off line. -/
theorem thread_passLines_concat (d : ThreadInput) (idx : ℕ) (r : ℚ) :
    ∃ ys z, Thread.passLines d idx r = ys ++ [z] ∧ GLine.isOff z = true :=
  ⟨GLine.text _ :: GLine.compOn _ :: (Thread.helixMoves d).map (Thread.helixLine d),
    GLine.compOff _, rfl, rfl⟩

/-- Each pocket pass block carries exactly one compensation-on and one
compensation-off line. -/
theorem pocket_passLines_counts (d : PocketInput) (pc : ℚ × ℚ) :
    (Pocket.passLines d pc).countP GLine.isOn = 1 ∧
    (Pocket.passLines d pc).countP GLine.isOff = 1 := by
  have hcirc : ∀ r : ℚ, (Pocket.circleLines d r).countP GLine.isOn = 0 ∧
      (Pocket.circleLines d r).countP GLine.isOff = 0 := by
    intro r
    constructor <;>
      simp [Pocket.circleLines, List.countP_cons, GLine.isOn, GLine.isOff]
  have hflat : ((Pocket.loopRadii d).flatMap (Pocket.circleLines d)).countP GLine.isOn = 0 ∧
      ((Pocket.loopRadii d).flatMap (Pocket.circleLines d)).countP GLine.isOff = 0 := by
    constructor <;>
      · rw [countP_flatMap]
        refine List.sum_eq_zero ?_
        intro x hx
        simp only [List.mem_map] at hx
        obtain ⟨r, _, rfl⟩ := hx
        simp [hcirc r, (hcirc r).1, (hcirc r).2]
  have hentry : ∀ prev cur : ℚ, (Pocket.entryLines d prev cur).countP GLine.isOn = 0 ∧
      (Pocket.entryLines d prev cur).countP GLine.isOff = 0 := by
    intro prev cur
    rcases lt_or_le 0 (Pocket.rampRadius d) with h | h
    · constructor <;>
        simp [Pocket.entryLines, if_pos h, List.countP_cons, GLine.isOn, GLine.isOff]
    · constructor <;>
        simp [Pocket.entryLines, if_neg (not_lt.mpr h), List.countP_cons,
          GLine.isOn, GLine.isOff]
  constructor <;>
    · rw [Pocket.passLines]
      simp [List.countP_cons, List.countP_append, (hentry pc.1 pc.2).1,
        (hentry pc.1 pc.2).2, hflat.1, hflat.2, (hcirc (Pocket.finalPathRadius d)).1,
        (hcirc (Pocket.finalPathRadius d)).2, GLine.isOn, GLine.isOff]

/-- Each thread-milling pass block carries exactly one compensation-on
and one compensation-off line. -/
theorem thread_passLines_counts (d : ThreadInput) (idx : ℕ) (r : ℚ) :
    (Thread.passLines d idx r).countP GLine.isOn = 1 ∧
    (Thread.passLines d idx r).countP GLine.isOff = 1 := by
  have hmap : ((Thread.helixMoves d).map (Thread.helixLine d)).countP GLine.isOn = 0 ∧
      ((Thread.helixMoves d).map (Thread.helixLine d)).countP GLine.isOff = 0 := by
    constructor <;>
      · rw [List.countP_map]
        refine List.countP_eq_zero.mpr ?_
        intro z _
        simp [Function.comp, Thread.helixLine, GLine.isOn, GLine.isOff]
  constructor <;>
    simp [Thread.passLines, List.countP_cons, List.countP_append, hmap.1, hmap.2,
      GLine.isOn, GLine.isOff]

set_option maxHeartbeats 2000000 in
/-- Claim C8 (amended): In both generators the sequencer emits exactly one
compensation-off line per compensation-on line, every compensation-on
line is followed by a compensation-off line strictly before the final
`M30` program-end line — and, in addition, the modal preamble line
carries one more textual `G40` (a safety reset), so the raw text holds
one `G40` more than the number of `G41`/`G42` commands. -/
theorem compensation_balance :
    (∀ d : PocketInput, d.cutterDiameter < d.circleDiameter →
      Pocket.generateGCode d = renderProg (Pocket.lines d)) ∧
    (∀ d : PocketInput,
      (Pocket.lines d).countP GLine.isOff = (Pocket.lines d).countP GLine.isOn ∧
      compFollowed ((Pocket.lines d).dropLast) = true ∧
      (Pocket.lines d).getLast? = some (GLine.text ("M30")) ∧
      GLine.preset (("G90 G17 G20 G40 G80")) ∈ Pocket.lines d) ∧
    (∀ d : ThreadInput,
      (Thread.lines d).countP GLine.isOff = (Thread.lines d).countP GLine.isOn ∧
      compFollowed ((Thread.lines d).dropLast) = true ∧
      (Thread.lines d).getLast? = some (GLine.text ("M30")) ∧
      GLine.preset (("G90 G17 G40 G80")) ∈ Thread.lines d) := by
  refine ⟨?_, ?_, ?_⟩
  · intro d h
    rw [Pocket.generateGCode, if_neg (not_le.mpr h)]
  · intro d
    have hsplit : Pocket.lines d =
        (Pocket.headerLines d ++ (Pocket.depthPairs d).flatMap (Pocket.passLines d) ++
          [GLine.motion (("G00 Z") ++ numToString d.rPlane), GLine.text ("M05"),
            GLine.text ("G91 G28 Z0"), GLine.text ("G91 G28 X0 Y0"), GLine.text ("G90")])
          ++ [GLine.text ("M30")] :=
      (List.append_assoc
        (Pocket.headerLines d ++ (Pocket.depthPairs d).flatMap (Pocket.passLines d))
        [GLine.motion (("G00 Z") ++ numToString d.rPlane), GLine.text ("M05"),
          GLine.text ("G91 G28 Z0"), GLine.text ("G91 G28 X0 Y0"), GLine.text ("G90")]
        [GLine.text ("M30")]).symm
    have hhead : ∀ x ∈ Pocket.headerLines d, GLine.isOn x = false := by
      intro x hx
      simp only [Pocket.headerLines, List.mem_cons, List.not_mem_nil, or_false] at hx
      rcases hx with rfl|rfl|rfl|rfl|rfl|rfl|rfl|rfl|rfl <;> rfl
    refine ⟨?_, ?_, ?_, ?_⟩
    · rw [Pocket.lines, List.countP_append, List.countP_append,
        List.countP_append, List.countP_append]
      have hh1 : (Pocket.headerLines d).countP GLine.isOn = 0 := by
        simp [Pocket.headerLines, List.countP_cons, GLine.isOn]
      have hh2 : (Pocket.headerLines d).countP GLine.isOff = 0 := by
        simp [Pocket.headerLines, List.countP_cons, GLine.isOff]
      have hf1 : (Pocket.footerLines d).countP GLine.isOn = 0 := by
        simp [Pocket.footerLines, List.countP_cons, GLine.isOn]
      have hf2 : (Pocket.footerLines d).countP GLine.isOff = 0 := by
        simp [Pocket.footerLines, List.countP_cons, GLine.isOff]
      rw [hh1, hh2, hf1, hf2, countP_flatMap, countP_flatMap,
        List.map_congr_left (fun pc _ => (pocket_passLines_counts d pc).2),
        List.map_congr_left (fun pc _ => (pocket_passLines_counts d pc).1)]
    · rw [hsplit, List.dropLast_concat, List.append_assoc]
      refine compFollowed_append_left _ _ hhead ?_
      refine compFollowed_flatMap (Pocket.passLines d)
        (pocket_passLines_concat d) _ _ ?_
      rfl
    · rw [hsplit, List.getLast?_concat]
    · rw [Pocket.lines]
      refine List.mem_append.mpr (Or.inl (List.mem_append.mpr (Or.inl ?_)))
      simp [Pocket.headerLines]
  · intro d
    have hsplit : Thread.lines d =
        (Thread.headerLines d
            ++ (Thread.radii d).enum.flatMap (fun p => Thread.passLines d p.1 p.2) ++
          [GLine.text ("G90"), GLine.motion (("G00 Z") ++ numToString d.rPlane),
            GLine.text ("M05"), GLine.text ("M09"), GLine.text ("G91 G28 Z0"),
            GLine.text ("G91 G28 X0 Y0"), GLine.text ("G90")])
          ++ [GLine.text ("M30")] :=
      (List.append_assoc
        (Thread.headerLines d
          ++ (Thread.radii d).enum.flatMap (fun p => Thread.passLines d p.1 p.2))
        [GLine.text ("G90"), GLine.motion (("G00 Z") ++ numToString d.rPlane),
          GLine.text ("M05"), GLine.text ("M09"), GLine.text ("G91 G28 Z0"),
          GLine.text ("G91 G28 X0 Y0"), GLine.text ("G90")]
        [GLine.text ("M30")]).symm
    have hhead : ∀ x ∈ Thread.headerLines d, GLine.isOn x = false := by
      intro x hx
      simp only [Thread.headerLines, List.mem_cons, List.not_mem_nil, or_false] at hx
      rcases hx with rfl|rfl|rfl|rfl|rfl|rfl|rfl|rfl|rfl|rfl <;> rfl
    refine ⟨?_, ?_, ?_, ?_⟩
    · rw [Thread.lines, List.countP_append, List.countP_append,
        List.countP_append, List.countP_append]
      have hh1 : (Thread.headerLines d).countP GLine.isOn = 0 := by
        simp [Thread.headerLines, List.countP_cons, GLine.isOn]
      have hh2 : (Thread.headerLines d).countP GLine.isOff = 0 := by
        simp [Thread.headerLines, List.countP_cons, GLine.isOff]
      have hf1 : (Thread.footerLines d).countP GLine.isOn = 0 := by
        simp [Thread.footerLines, List.countP_cons, GLine.isOn]
      have hf2 : (Thread.footerLines d).countP GLine.isOff = 0 := by
        simp [Thread.footerLines, List.countP_cons, GLine.isOff]
      have hmap1 : (Thread.radii d).enum.map
          (fun p => (Thread.passLines d p.1 p.2).countP GLine.isOff)
          = (Thread.radii d).enum.map (fun _ => 1) :=
        List.map_congr_left (fun p _ => (thread_passLines_counts d p.1 p.2).2)
      have hmap2 : (Thread.radii d).enum.map
          (fun p => (Thread.passLines d p.1 p.2).countP GLine.isOn)
          = (Thread.radii d).enum.map (fun _ => 1) :=
        List.map_congr_left (fun p _ => (thread_passLines_counts d p.1 p.2).1)
      rw [hh1, hh2, hf1, hf2, countP_flatMap, countP_flatMap, hmap1, hmap2]
    · rw [hsplit, List.dropLast_concat, List.append_assoc]
      refine compFollowed_append_left _ _ hhead ?_
      refine compFollowed_flatMap (fun (p : ℕ × ℚ) => Thread.passLines d p.1 p.2)
        (fun (p : ℕ × ℚ) => thread_passLines_concat d p.1 p.2) _ _ ?_
      rfl
    · rw [hsplit, List.getLast?_concat]
    · rw [Thread.lines]
      refine List.mem_append.mpr (Or.inl (List.mem_append.mpr (Or.inl ?_)))
      simp [Thread.headerLines]

set_option maxRecDepth 100000 in
/-- Counterexample to C8 as stated: at the default pocket input the
emitted text holds three lines containing `G40` (the modal preamble plus
one per pass) against two lines containing `G41`, so the program does
not contain exactly one compensation-off command per compensation-on
command. -/
theorem compensation_count_counterexample :
    countContaining ("G40") (Pocket.lines pdDefault) = 3 ∧
    countContaining ("G41") (Pocket.lines pdDefault) = 2 ∧
    countContaining ("G42") (Pocket.lines pdDefault) = 0 ∧
    countContaining ("G40") (Pocket.lines pdDefault)
      ≠ countContaining ("G41") (Pocket.lines pdDefault)
        + countContaining ("G42") (Pocket.lines pdDefault) := by
  with_unfolding_all decide

/-- Witness for `compensation_balance` at the default inputs. -/
theorem compensation_balance_witness :
    pdDefault.cutterDiameter < pdDefault.circleDiameter ∧
    Pocket.generateGCode pdDefault = renderProg (Pocket.lines pdDefault) ∧
    (Pocket.lines pdDefault).countP GLine.isOff
      = (Pocket.lines pdDefault).countP GLine.isOn ∧
    compFollowed ((Thread.lines tdDefault).dropLast) = true := by
  have h : pdDefault.cutterDiameter < pdDefault.circleDiameter := by
    with_unfolding_all decide
  exact ⟨h, compensation_balance.1 pdDefault h,
    (compensation_balance.2.1 pdDefault).1,
    (compensation_balance.2.2 tdDefault).2.1⟩

/-- A number below `10^k` has at most `k` digits. -/
theorem natDigsAux_length : ∀ (fuel n k : ℕ), n < 10 ^ k →
    (natDigsAux fuel n).length ≤ k := by
  intro fuel
  induction fuel with
  | zero => intro n k _; simp [natDigsAux]
  | succ f ih =>
    intro n k h
    rw [natDigsAux]
    by_cases h0 : n = 0
    · simp [h0]
    · rw [if_neg h0]
      have hk : k ≠ 0 := by
        intro hk0
        subst hk0
        simp at h
        omega
      obtain ⟨k2, rfl⟩ : ∃ k2, k = k2 + 1 := ⟨k - 1, by omega⟩
      simp only [List.length_cons]
      have hdiv : n / 10 < 10 ^ k2 := by
        refine Nat.div_lt_of_lt_mul ?_
        rw [pow_succ] at h
        omega
      have := ih (n / 10) k2 hdiv
      omega

/-- The numeral of a number below `10^k` (with `k ≥ 1`) has at most `k`
characters. -/
theorem natStr_length_le (n k : ℕ) (h : n < 10 ^ k) (hk : 0 < k) :
    (natStr n).length ≤ k := by
  rw [natStr]
  by_cases h0 : n = 0
  · rw [if_pos h0]
    have : (("0") : String).length = 1 := by decide
    omega
  · rw [if_neg h0]
    have hlen : ((natDigsAux n n).reverse).length ≤ k := by
      rw [List.length_reverse]
      exact natDigsAux_length n n k h
    exact hlen

/-- Zero-padding a numeral below `10^k` to width `k` yields exactly `k`
characters. -/
theorem padZ_length (k n : ℕ) (h : n < 10 ^ k) (hk : 0 < k) :
    (padZ k n).length = k := by
  rw [padZ]
  have h1 : (natStr n).length ≤ k := natStr_length_le n k h hk
  have h2 : (String.mk (List.replicate (k - (natStr n).length) '0'
      ++ (natStr n).data)).length
      = (k - (natStr n).length) + (natStr n).data.length := by
    show (List.replicate (k - (natStr n).length) '0' ++ (natStr n).data).length = _
    rw [List.length_append, List.length_replicate]
  have h3 : (natStr n).data.length = (natStr n).length := rfl
  omega

/-- Claim C9 (amended): Each generator is a pure function — identical
inputs give byte-identical text; every `toFixed(4)`-rendered value has
exactly four digits after the decimal point; the feed renders with a
trailing dot exactly when it is mathematically integral.  (The safe-plane
Z coordinate is rendered by plain number-to-string, not `toFixed(4)`;
see the counterexample.) -/
theorem deterministic_formatting :
    (∀ d e : PocketInput, d = e → Pocket.generateGCode d = Pocket.generateGCode e) ∧
    (∀ d e : ThreadInput, d = e → Thread.generateGCode d = Thread.generateGCode e) ∧
    (∀ q : ℚ, toFixed4 q
      = (if round (q * 10000) < 0 then ("-") else (""))
        ++ natStr ((round (q * 10000) : ℤ).natAbs / 10000) ++ (".")
        ++ padZ 4 ((round (q * 10000) : ℤ).natAbs % 10000)) ∧
    (∀ q : ℚ, (padZ 4 ((round (q * 10000) : ℤ).natAbs % 10000)).length = 4) ∧
    (∀ f : ℚ, f.den = 1 → formatFeed f = numToString f ++ (".")) ∧
    (∀ f : ℚ, f.den ≠ 1 → formatFeed f = numToString f) := by
  refine ⟨fun d e h => congrArg _ h, fun d e h => congrArg _ h, fun q => rfl,
    fun q => ?_, fun f h => ?_, fun f h => ?_⟩
  · exact padZ_length 4 _ (Nat.mod_lt _ (by omega)) (by omega)
  · rw [formatFeed, if_pos h]
  · rw [formatFeed, if_neg h]

set_option maxRecDepth 100000 in
/-- Counterexample to C9 as stated: at the default pocket input the
safe-plane Z position on the `G43` line renders as `Z0.1` — one decimal
digit, not four — so not every position coordinate is rendered with
exactly 4 decimal places. -/
theorem fixed_decimals_counterexample :
    containsStr ("G43 H1 Z0.1\n") (Pocket.generateGCode pdDefault) = true ∧
    containsStr ("G43 H1 Z0.1000") (Pocket.generateGCode pdDefault) = false ∧
    containsStr ("Z0.1000") (Pocket.generateGCode pdDefault) = false := by
  with_unfolding_all decide

/-- Witness for `deterministic_formatting` at concrete values. -/
theorem deterministic_formatting_witness :
    Pocket.generateGCode pdDefault = Pocket.generateGCode pdDefault ∧
    (20 : ℚ).den = 1 ∧
    formatFeed (20 : ℚ) = numToString (20 : ℚ) ++ (".") ∧
    (padZ 4 ((round ((1/4 : ℚ) * 10000) : ℤ).natAbs % 10000)).length = 4 := by
  have h : (20 : ℚ).den = 1 := by with_unfolding_all decide
  exact ⟨deterministic_formatting.1 pdDefault pdDefault rfl, h,
    deterministic_formatting.2.2.2.2.1 20 h,
    deterministic_formatting.2.2.2.1 (1/4)⟩


end CncMate
